import Mathlib

/-
Verification of the value engine of the Uiua runtime (src/value.rs) against its
natural-language specification.

Modelling conventions:
* `f64` is modelled as `ℚ`.  Every floating-point operation the claims exercise
  (`fract`, `trunc`, comparison, exact conversion of bytes to doubles, exact
  subtraction of small integers) is exact on the IEEE doubles involved, so the
  rational model is faithful on the inputs the claims quantify over.
* `u8` is modelled as `Nat`; byte values are naturals below 256, and theorems
  carry that bound as a hypothesis where it matters.
* Rust `UiuaResult<T>` is modelled as `Except UiuaError T`; the execution
  context `Uiua` only contributes its error constructor and its optional
  numeric fill value, exactly the interface `value.rs` consumes.
* Code living in the repository outside `src/value.rs` (the `array` and
  `algorithm::pervade` modules) is modelled from the spec; each such
  definition says so in its doc comment.
-/

set_option linter.dupNamespace false

namespace Uiua

/-- Unicode scalar values (Rust `char`), as Lean characters. -/
abbrev UChar := Char

/-- Rust `f64::EPSILON` = 2⁻⁵², exact as a rational. -/
def f64Epsilon : ℚ := Rat.divInt 1 (2 ^ 52)

/-- Rust `f64::trunc`: round toward zero.  Exact for every double, hence exact
in ℚ: the toward-zero integer quotient of numerator by denominator. -/
def trunc (q : ℚ) : ℚ := ((q.num.tdiv (q.den : Int) : Int) : ℚ)

/-- Rust `f64::fract`: `x - x.trunc()` (the sign follows the argument).  Exact
in ℚ: the toward-zero remainder of numerator by denominator, over the
denominator. -/
def fract (q : ℚ) : ℚ := Rat.divInt (q.num.tmod (q.den : Int)) (q.den : Int)

/-- Rust `f64::abs`. -/
def ratAbs (q : ℚ) : ℚ := Rat.divInt (q.num.natAbs : Int) (q.den : Int)

/-- The exact conversion `u8 as f64`. -/
def byteToDouble (b : Nat) : ℚ := (b : ℚ)

/-- Rust `f as u8` (saturating float-to-int cast, truncation toward zero). -/
def ratToU8 (q : ℚ) : Nat := if q ≤ 0 then 0 else min 255 q.floor.toNat

/-- Rust `f as usize` (saturating, truncation toward zero). -/
def ratToUsize (q : ℚ) : Nat := if q ≤ 0 then 0 else q.floor.toNat

/-- Rust `f as isize` (truncation toward zero; saturation never reached on claim inputs). -/
def ratToIsize (q : ℚ) : Int := if 0 ≤ q then q.floor else q.ceil

/-- Comparison of rationals (total order on the doubles the claims involve). -/
def ratCmp (a b : ℚ) : Ordering := if a < b then .lt else if b < a then .gt else .eq

/-- Comparison of naturals (Rust `u8` ordering). -/
def natCmp (a b : Nat) : Ordering := if a < b then .lt else if b < a then .gt else .eq

/-- Comparison of characters by code point (Rust `char` ordering). -/
def charCmp (a b : UChar) : Ordering :=
  if a.toNat < b.toNat then .lt else if b.toNat < a.toNat then .gt else .eq

/-- Modelled from the spec: `Array<T>` of the missing `array` module — a shape
(ordered dimension sizes) plus a flat row-major buffer. Copy-on-write sharing is
a pure optimization with no observable semantics and is not modelled. -/
structure Array (α : Type) where
  shape : List Nat
  data : List α
deriving DecidableEq

/-- Rank = number of shape dimensions. -/
def Array.rank {α : Type} (a : Array α) : Nat := a.shape.length

/-- Modelled from the spec: `Array::<u8>::convert::<f64>` of the missing `array`
module — elementwise widening of bytes to doubles, shape unchanged. -/
def Array.convert (a : Array Nat) : Array ℚ := ⟨a.shape, a.data.map byteToDouble⟩

/-- Modelled from the spec: a function handle (missing `function` module) —
immutable and shared; its internals are irrelevant to the claims, only identity
(for equality and ordering among Func arrays) is retained. -/
structure Function where
  id : Nat
deriving DecidableEq

/-- The tagged union `Value` of value.rs: exactly one of the four array kinds. -/
inductive Value where
  | Num : Array ℚ → Value
  | Byte : Array Nat → Value
  | Char : Array UChar → Value
  | Func : Array Function → Value
deriving DecidableEq

/-- Embeds `Value::shape` (via `generic_ref_shallow`). -/
def Value.shape : Value → List Nat
  | .Num a => a.shape
  | .Byte a => a.shape
  | .Char a => a.shape
  | .Func a => a.shape

/-- Embeds `Value::rank`: `self.shape().len()`. -/
def Value.rank (v : Value) : Nat := v.shape.length

/-- Embeds `Value::type_name` (value.rs lines 130-136). -/
def Value.type_name : Value → String
  | .Num _ => "number"
  | .Byte _ => "number"
  | .Char _ => "character"
  | .Func _ => "function"

/-- A failure: the human-readable message plus the fill flag the dispatcher
inspects via `is_fill` (the error type lives in the missing `error` module;
message and fill flag are the only parts value.rs consumes). -/
structure UiuaError where
  message : String
  fill : Bool
deriving DecidableEq

/-- Embeds `UiuaError::is_fill`. -/
def UiuaError.is_fill (e : UiuaError) : Bool := e.fill

/-- The execution context: the only parts value.rs consumes are the error
constructor and the optional numeric fill value. -/
structure Uiua where
  num_fill : Option ℚ

/-- Embeds `env.error(message)`: builds a plain (non-fill) failure. -/
def Uiua.error (_env : Uiua) (msg : String) : UiuaError := ⟨msg, false⟩

/-- Embeds `UiuaResult<T>`. -/
abbrev UiuaResult (α : Type) := Except UiuaError α

deriving instance DecidableEq for Except

/-- Rust `f % 1.0` (remainder with the dividend's sign), equal to `fract`. -/
def remOne (q : ℚ) : ℚ := fract q

/-- Embeds `Value::as_bool` (value.rs lines 365-391). `data[0]` on a rank-0 array is
modelled as `headD` (the shape invariant gives a rank-0 array one element). -/
def Value.as_bool (v : Value) (env : Uiua) (requirement : String) : UiuaResult Bool :=
  match v with
  | .Num nums =>
    if nums.rank > 0 then
      .error (env.error (requirement ++ ", but its rank is " ++ toString nums.rank))
    else
      let num := nums.data.headD 0
      if f64Epsilon < ratAbs (fract num) then
        .error (env.error (requirement ++ ", but it has a fractional part"))
      else .ok (decide (num ≠ 0))
  | .Byte bytes =>
    if bytes.rank > 0 then
      .error (env.error (requirement ++ ", but its rank is " ++ toString bytes.rank))
    else .ok (decide (bytes.data.headD 0 ≠ 0))
  | value => .error (env.error (requirement ++ ", but it is " ++ value.type_name))

/-- Embeds `Value::as_nat` (value.rs lines 392-421). -/
def Value.as_nat (v : Value) (env : Uiua) (requirement : String) : UiuaResult Nat :=
  match v with
  | .Num nums =>
    if nums.rank > 0 then
      .error (env.error (requirement ++ ", but its rank is " ++ toString nums.rank))
    else
      let num := nums.data.headD 0
      if num < 0 then
        .error (env.error (requirement ++ ", but it is negative"))
      else if f64Epsilon < ratAbs (fract num) then
        .error (env.error (requirement ++ ", but it has a fractional part"))
      else .ok (ratToUsize num)
  | .Byte bytes =>
    if bytes.rank > 0 then
      .error (env.error (requirement ++ ", but its rank is " ++ toString bytes.rank))
    else .ok (bytes.data.headD 0)
  | value => .error (env.error (requirement ++ ", but it is " ++ value.type_name))

/-- Embeds `Value::as_int` (value.rs lines 422-448). -/
def Value.as_int (v : Value) (env : Uiua) (requirement : String) : UiuaResult Int :=
  match v with
  | .Num nums =>
    if nums.rank > 0 then
      .error (env.error (requirement ++ ", but its rank is " ++ toString nums.rank))
    else
      let num := nums.data.headD 0
      if f64Epsilon < ratAbs (fract num) then
        .error (env.error (requirement ++ ", but it has a fractional part"))
      else .ok (ratToIsize num)
  | .Byte bytes =>
    if bytes.rank > 0 then
      .error (env.error (requirement ++ ", but its rank is " ++ toString bytes.rank))
    else .ok (bytes.data.headD 0)
  | value => .error (env.error (requirement ++ ", but it is " ++ value.type_name))

/-- Embeds `Value::as_num` (value.rs lines 449-471). -/
def Value.as_num (v : Value) (env : Uiua) (requirement : String) : UiuaResult ℚ :=
  match v with
  | .Num nums =>
    if nums.rank > 0 then
      .error (env.error (requirement ++ ", but its rank is " ++ toString nums.rank))
    else .ok (nums.data.headD 0)
  | .Byte bytes =>
    if bytes.rank > 0 then
      .error (env.error (requirement ++ ", but its rank is " ++ toString bytes.rank))
    else .ok (byteToDouble (bytes.data.headD 0))
  | value => .error (env.error (requirement ++ ", but it is " ++ value.type_name))

/-- The element loop of `as_number_list`: the first element failing `test`
aborts with the bare requirement message (value.rs lines 498-503 and 513-519);
otherwise the converted elements are collected in order. -/
def numberListLoop {T : Type} (env : Uiua) (requirement : String)
    (test : ℚ → Bool) (convert : ℚ → T) : List ℚ → UiuaResult (List T)
  | [] => .ok []
  | x :: xs =>
    if test x then
      match numberListLoop env requirement test convert xs with
      | .ok r => .ok (convert x :: r)
      | .error e => .error e
    else .error (env.error requirement)

/-- Embeds `Value::as_number_list` (value.rs lines 483-526). -/
def Value.as_number_list {T : Type} (v : Value) (env : Uiua) (requirement : String)
    (test : ℚ → Bool) (convert : ℚ → T) : UiuaResult (List T) :=
  match v with
  | .Num nums =>
    if nums.rank > 1 then
      .error (env.error (requirement ++ ", but its rank is " ++ toString nums.rank))
    else numberListLoop env requirement test convert nums.data
  | .Byte bytes =>
    if bytes.rank > 1 then
      .error (env.error (requirement ++ ", but its rank is " ++ toString bytes.rank))
    else numberListLoop env requirement test convert (bytes.data.map byteToDouble)
  | value => .error (env.error (requirement ++ ", but it is " ++ value.type_name ++ "s"))

/-- Embeds `Value::as_indices` (value.rs lines 362-364): `as_number_list` with test
`f % 1.0 == 0.0` and conversion `f as isize`. -/
def Value.as_indices (v : Value) (env : Uiua) (requirement : String) : UiuaResult (List Int) :=
  v.as_number_list env requirement (fun f => remOne f == 0) ratToIsize

/-- Embeds `Value::as_naturals` (value.rs lines 472-479): test
`f.fract() == 0.0 && f >= 0.0`, conversion `f as usize`. -/
def Value.as_naturals (v : Value) (env : Uiua) (requirement : String) : UiuaResult (List Nat) :=
  v.as_number_list env requirement (fun f => fract f == 0 && decide (0 ≤ f)) ratToUsize

/-- Embeds `Value::as_integers` (value.rs lines 480-482): test `f.fract() == 0.0`,
conversion `f as isize`. -/
def Value.as_integers (v : Value) (env : Uiua) (requirement : String) : UiuaResult (List Int) :=
  v.as_number_list env requirement (fun f => fract f == 0) ratToIsize

/-- Embeds `Value::as_string` (value.rs lines 577-589). -/
def Value.as_string (v : Value) (env : Uiua) (requirement : String) : UiuaResult String :=
  match v with
  | .Char chars =>
    if chars.rank > 1 then
      .error (env.error (requirement ++ ", but its rank is " ++ toString chars.rank))
    else .ok ⟨chars.data⟩
  | value => .error (env.error (requirement ++ ", but its type is " ++ value.type_name))

/-- UTF-8 encoding of one character (Rust `String::into_bytes` emits UTF-8). -/
def charUtf8 (c : UChar) : List Nat :=
  let n := c.toNat
  if n < 0x80 then [n]
  else if n < 0x800 then [0xC0 + n / 0x40, 0x80 + n % 0x40]
  else if n < 0x10000 then [0xE0 + n / 0x1000, 0x80 + n / 0x40 % 0x40, 0x80 + n % 0x40]
  else [0xF0 + n / 0x40000, 0x80 + n / 0x1000 % 0x40, 0x80 + n / 0x40 % 0x40, 0x80 + n % 0x40]

/-- Embeds `Value::into_bytes` (value.rs lines 590-617): rank must be exactly 1;
Num elements are cast with `as u8`, Char data is UTF-8 encoded. -/
def Value.into_bytes (v : Value) (env : Uiua) (requirement : String) : UiuaResult (List Nat) :=
  match v with
  | .Byte a =>
    if a.rank ≠ 1 then
      .error (env.error (requirement ++ ", but its rank is " ++ toString a.rank))
    else .ok a.data
  | .Num a =>
    if a.rank ≠ 1 then
      .error (env.error (requirement ++ ", but its rank is " ++ toString a.rank))
    else .ok (a.data.map ratToU8)
  | .Char a =>
    if a.rank ≠ 1 then
      .error (env.error (requirement ++ ", but its rank is " ++ toString a.rank))
    else .ok (a.data.flatMap charUtf8)
  | value => .error (env.error (requirement ++ ", but its type is " ++ value.type_name))

/-- Embeds `Value::compress` (value.rs lines 618-633): a Num array all of whose
elements have zero fractional part and lie in [0,255] is rewritten as Byte;
anything else is untouched. -/
def Value.compress : Value → Value
  | .Num nums =>
    if nums.data.all (fun n => fract n == 0 && decide (n ≤ 255) && decide (0 ≤ n)) then
      Value.Byte ⟨nums.shape, nums.data.map ratToU8⟩
    else Value.Num nums
  | v => v

/-- Modelled from the spec: same-kind `Array` equality of the missing `array`
module — equal shape and equal flat data. -/
def Array.beq {α : Type} [DecidableEq α] (a b : Array α) : Bool := decide (a = b)

/-- Modelled from the spec: the cross-kind `Array<f64> == Array<u8>` of the
missing `array` module — "Byte(a) == Num(map(a, to_double))": equal shapes and
elementwise equal numeric content. -/
def numByteArrEq (a : Array ℚ) (b : Array Nat) : Bool := a.beq b.convert

/-- Embeds `impl PartialEq for Value` (value.rs lines 959-971): same-kind arrays
compare directly, Num/Byte pairs compare numerically, all other pairs are
unequal. -/
def valueEq : Value → Value → Bool
  | .Num a, .Num b => a.beq b
  | .Byte a, .Byte b => a.beq b
  | .Char a, .Char b => a.beq b
  | .Func a, .Func b => a.beq b
  | .Num a, .Byte b => numByteArrEq a b
  | .Byte a, .Num b => numByteArrEq b a
  | _, _ => false

/-- Lexicographic list comparison. -/
def listCmp {α : Type} (c : α → α → Ordering) : List α → List α → Ordering
  | [], [] => .eq
  | [], _ :: _ => .lt
  | _ :: _, [] => .gt
  | x :: xs, y :: ys =>
    match c x y with
    | .eq => listCmp c xs ys
    | o => o

/-- Modelled from the spec: same-kind `Array` ordering of the missing `array`
module — compare shapes, then flat data, lexicographically ("within a kind
compare naturally"). -/
def Array.cmpWith {α : Type} (c : α → α → Ordering) (a b : Array α) : Ordering :=
  match listCmp natCmp a.shape b.shape with
  | .eq => listCmp c a.data b.data
  | o => o

/-- Ordering of function handles by identity (missing `function` module). -/
def funcCmp (f g : Function) : Ordering := natCmp f.id g.id

/-- Embeds `impl Ord for Value` (value.rs lines 981-998): same-kind arrays compare
naturally, Num/Byte pairs compare numerically (the Byte side promoted — the
missing `Array<f64>: PartialOrd<Array<u8>>` is modelled from the spec), and
remaining pairs are ranked Num/Byte < Char < Func. -/
def valueCmp : Value → Value → Ordering
  | .Num a, .Num b => a.cmpWith ratCmp b
  | .Byte a, .Byte b => a.cmpWith natCmp b
  | .Char a, .Char b => a.cmpWith charCmp b
  | .Func a, .Func b => a.cmpWith funcCmp b
  | .Num a, .Byte b => a.cmpWith ratCmp b.convert
  | .Byte a, .Num b => Array.cmpWith ratCmp a.convert b
  | .Num _, _ => .lt
  | _, .Num _ => .gt
  | .Byte _, _ => .lt
  | _, .Byte _ => .gt
  | .Char _, _ => .lt
  | _, .Char _ => .gt

/-- Modelled from the spec: the token stream an `Array` feeds to a hasher
(missing `array` module) — its shape followed by its elements, each element
encoded through `enc`.  Byte elements are given their numeric (double)
encoding, the best case for the Num/Byte hash-equivalence claim. -/
def Array.hashTokens {α : Type} (enc : α → ℚ) (a : Array α) : List ℚ :=
  a.shape.map (fun n => (n : ℚ)) ++ a.data.map enc

/-- Embeds `impl Hash for Value` (value.rs lines 1000-1021): the kind discriminant
(0 for Num, 1 for Byte, 2 for Char, 3 for Func) is fed to the hasher first,
then the array's own tokens. -/
def valueHashTokens : Value → List ℚ
  | .Num a => 0 :: a.hashTokens id
  | .Byte a => 1 :: a.hashTokens byteToDouble
  | .Char a => 2 :: a.hashTokens (fun c => (c.toNat : ℚ))
  | .Func a => 3 :: a.hashTokens (fun f => (f.id : ℚ))

/-- Embeds `impl Default for Value` (value.rs lines 29-33): `Array::<u8>::default()`.
Modelled from the spec: the default array of the missing `array` module is the
empty (shape [0]) byte array. -/
def Value.default : Value := .Byte ⟨[0], []⟩

/-- Embeds `row.shape_mut().insert(0, 1)`: insert a leading dimension of size 1. -/
def Value.insertLeadingDim : Value → Value
  | .Num a => .Num ⟨1 :: a.shape, a.data⟩
  | .Byte a => .Byte ⟨1 :: a.shape, a.data⟩
  | .Char a => .Char ⟨1 :: a.shape, a.data⟩
  | .Func a => .Func ⟨1 :: a.shape, a.data⟩

/-- Embeds `ValueBuilder` (value.rs lines 1040-1045). -/
structure ValueBuilder where
  value : Option Value
  rows : Nat
  capacity : Nat
deriving DecidableEq

/-- Embeds `ValueBuilder::new`. -/
def ValueBuilder.new : ValueBuilder := ⟨none, 0, 0⟩

/-- Embeds `ValueBuilder::with_capacity`. -/
def ValueBuilder.with_capacity (capacity : Nat) : ValueBuilder := ⟨none, 0, capacity⟩

/-- Embeds `ValueBuilder::add_row` (value.rs lines 1062-1072).  `Value::append` lives
in the missing `algorithm` module and is passed in as a parameter; the first
call never invokes it.  `reserve_min` only reserves buffer capacity and has no
observable effect on the value. -/
def ValueBuilder.add_row (append : Value → Value → UiuaResult Value)
    (b : ValueBuilder) (row : Value) : UiuaResult ValueBuilder :=
  match b.value with
  | some v =>
    match append v row with
    | .ok v2 => .ok ⟨some v2, b.rows + 1, b.capacity⟩
    | .error e => .error e
  | none => .ok ⟨some row.insertLeadingDim, b.rows + 1, b.capacity⟩

/-- Embeds `ValueBuilder::finish` (value.rs lines 1073-1075): the accumulated value,
or `Value::default()` if no row was added. -/
def ValueBuilder.finish (b : ValueBuilder) : Value := b.value.getD Value.default

/-- A fill-flagged failure (the kind `is_fill` recognises). -/
def fillError (msg : String) : UiuaError := ⟨msg, true⟩

/-- The elementwise loop of `bin_pervade`: the first per-element failure
aborts the whole operation. -/
def pervadeLoop {α β γ : Type} (f : α → β → UiuaResult γ) :
    List α → List β → UiuaResult (List γ)
  | [], [] => .ok []
  | x :: xs, y :: ys =>
    match f x y with
    | .ok z =>
      match pervadeLoop f xs ys with
      | .ok zs => .ok (z :: zs)
      | .error e => .error e
    | .error e => .error e
  | _, _ => .error (fillError "length mismatch")

/-- Modelled from the spec: `bin_pervade` of the missing `algorithm::pervade`
module, restricted to operands of equal shape (all claims quantify over
matching shapes); shape-prefix broadcasting and shape-fill reconciliation are
external and not exercised by the claims.  The scalar function may fail per
element, and the first failure aborts. -/
def bin_pervade {α β γ : Type} (a : Array α) (b : Array β)
    (f : α → β → UiuaResult γ) : UiuaResult (Array γ) :=
  if a.shape = b.shape then
    match pervadeLoop f a.data b.data with
    | .ok d => .ok ⟨a.shape, d⟩
    | .error e => .error e
  else .error (fillError "shape mismatch")

/-- The spec's binary pervasive operation set (value.rs lines 857-957). -/
inductive BinPrim where
  | add | sub | mul | div | modulus | pow | log | atan2 | min | max
  | is_eq | is_ne | is_lt | is_le | is_gt | is_ge
deriving DecidableEq

/-- Display name of a binary op (used only inside modelled error messages). -/
def opName : BinPrim → String
  | .add => "add" | .sub => "subtract" | .mul => "multiply" | .div => "divide"
  | .modulus => "modulus" | .pow => "power" | .log => "logarithm"
  | .atan2 => "atan2" | .min => "min" | .max => "max"
  | .is_eq => "compare" | .is_ne => "compare" | .is_lt => "compare"
  | .is_le => "compare" | .is_gt => "compare" | .is_ge => "compare"

/-- Whether the op's `value_bin_impl!` invocation lists the numeric-mixed arms
`(Byte, Num, byte_num, num_num)` and `(Num, Byte, num_byte, num_num)`
(value.rs lines 857-957): every op of the binary set does, except `atan2`
(line 915), whose invocation lists only `(Num, Num, num_num)`. -/
def hasMixedArms : BinPrim → Bool
  | .atan2 => false
  | _ => true

/-- The `[Num, num_num]` / `(Num, Num, num_num)` arm: elementwise application
of the op's Num scalar function (in-place mutation in the Rust code is a pure
optimization with no observable difference, per the spec). -/
def numNumArm (num_num : ℚ → ℚ → ℚ) (_env : Uiua) (a b : Array ℚ) : UiuaResult Value :=
  match bin_pervade a b (fun x y => .ok (num_num x y)) with
  | .ok arr => .ok (.Num arr)
  | .error e => .error e

/-- The `(Byte, Num, byte_num, num_num)` arm of `value_bin_impl!` (macro at
value.rs lines 795-855): with a numeric fill in context
(`val_retry!(Byte, env)`), the byte_num attempt is made first and a fill
failure is retried with the Byte side widened; otherwise byte_num is applied
directly.  `byte_num` is modelled from the spec: "promote the Byte side to Num
and apply the Num scalar function". -/
def byteNumArm (num_num : ℚ → ℚ → ℚ) (env : Uiua) (a : Array Nat) (b : Array ℚ) :
    UiuaResult Value :=
  if env.num_fill.isSome then
    match bin_pervade a b (fun x y => .ok (num_num (byteToDouble x) y)) with
    | .ok arr => .ok (.Num arr)
    | .error e =>
      if e.is_fill then
        match bin_pervade a.convert b (fun x y => .ok (num_num x y)) with
        | .ok arr => .ok (.Num arr)
        | .error e2 => .error e2
      else .error e
  else
    match bin_pervade a b (fun x y => .ok (num_num (byteToDouble x) y)) with
    | .ok arr => .ok (.Num arr)
    | .error e => .error e

/-- The `(Num, Byte, num_byte, num_num)` arm, mirror image of `byteNumArm`. -/
def numByteArm (num_num : ℚ → ℚ → ℚ) (env : Uiua) (a : Array ℚ) (b : Array Nat) :
    UiuaResult Value :=
  if env.num_fill.isSome then
    match bin_pervade a b (fun x y => .ok (num_num x (byteToDouble y))) with
    | .ok arr => .ok (.Num arr)
    | .error e =>
      if e.is_fill then
        match bin_pervade a b.convert (fun x y => .ok (num_num x y)) with
        | .ok arr => .ok (.Num arr)
        | .error e2 => .error e2
      else .error e
  else
    match bin_pervade a b (fun x y => .ok (num_num x (byteToDouble y))) with
    | .ok arr => .ok (.Num arr)
    | .error e => .error e

/-- The numeric fragment of the `value_bin_impl!` expansions (value.rs lines
795-957): dispatch for a Num/Num or numeric-mixed pair of operands,
parameterized by the op's Num scalar function (the scalar functions live in
the missing `pervade` module).  A numeric-mixed pair takes the mixed arm when
the op's invocation lists one; otherwise no arm matches and the pair falls
through to the final type-error arm (value.rs line 850), whose message format
is modelled (`pervade`'s error constructor is missing code).  Same-kind
Byte/Byte arms are modelled separately where a claim needs them
(`Value.subByteDispatch`); Char and Func-boxing arms are outside every
claim's scope and are marked as such. -/
def binDispatch (op : BinPrim) (num_num : ℚ → ℚ → ℚ) (env : Uiua) :
    Value → Value → UiuaResult Value
  | .Num a, .Num b => numNumArm num_num env a b
  | .Byte a, .Num b =>
    if hasMixedArms op then byteNumArm num_num env a b
    else .error (env.error ("Cannot " ++ opName op ++ " number and number"))
  | .Num a, .Byte b =>
    if hasMixedArms op then numByteArm num_num env a b
    else .error (env.error ("Cannot " ++ opName op ++ " number and number"))
  | _, _ => .error (env.error "operand pair outside the modelled numeric fragment")

/-- Modelled from the spec: `pervade::sub::num_num` — Num scalar subtraction;
uiua's subtract takes `self` from `other`, so the second operand's element is
diminished by the first's. -/
def subNumNum (a b : ℚ) : ℚ := b - a

/-- Modelled from the spec: `pervade::sub::byte_byte` — byte subtraction,
failing with a fill-retryable ("Byte-domain") error when the result would go
negative. -/
def subByteByte (a b : Nat) : UiuaResult Nat :=
  if a ≤ b then .ok (b - a)
  else .error (fillError "Cannot subtract a byte from a smaller byte")

/-- The `(Byte, Byte, byte_byte, num_num)` arm of `value_bin_impl!(sub, ...)`
(value.rs lines 869-878, macro lines 795-855): with a numeric fill in context
the byte attempt runs first and a fill failure is retried with both operands
widened to Num; without a fill the byte attempt's failure is final. -/
def Value.subByteDispatch (env : Uiua) (a b : Array Nat) : UiuaResult Value :=
  if env.num_fill.isSome then
    match bin_pervade a b subByteByte with
    | .ok arr => .ok (.Byte arr)
    | .error e =>
      if e.is_fill then
        match bin_pervade a.convert b.convert (fun x y => .ok (subNumNum x y)) with
        | .ok arr => .ok (.Num arr)
        | .error e2 => .error e2
      else .error e
  else
    match bin_pervade a b subByteByte with
    | .ok arr => .ok (.Byte arr)
    | .error e => .error e

/-- Is the result a success? -/
def resultIsOk {α : Type} : UiuaResult α → Bool
  | .ok _ => true
  | .error _ => false

/-- Does the first list occur at the head of the second? -/
def headMatches : List Char → List Char → Bool
  | [], _ => true
  | _ :: _, [] => false
  | x :: xs, y :: ys => x == y && headMatches xs ys

/-- Does `n` occur contiguously anywhere in the second list? -/
def occursIn (n : List Char) : List Char → Bool
  | [] => headMatches n []
  | c :: cs => headMatches n (c :: cs) || occursIn n cs

/-- Tests whether `needle` occurs as a contiguous substring of `haystack`. -/
def strHas (haystack needle : String) : Bool := occursIn needle.data haystack.data

theorem headMatches_append (n t : List Char) : headMatches n (n ++ t) = true := by
  induction n with
  | nil => rfl
  | cons x xs ih => simp [headMatches, ih]

theorem occursIn_self (n t : List Char) : occursIn n (n ++ t) = true := by
  cases n with
  | nil => cases t <;> simp [occursIn, headMatches]
  | cons x xs => simp [occursIn, headMatches, headMatches_append]

theorem occursIn_refl (n : List Char) : occursIn n n = true := by
  have h := occursIn_self n []
  simpa using h

theorem occursIn_append (n s m : List Char) (h : occursIn n m = true) :
    occursIn n (s ++ m) = true := by
  induction s with
  | nil => simpa using h
  | cons c cs ih => simpa [occursIn] using Or.inr ih

/-- The requirement string is always visible at the front of `req ++ tail`. -/
theorem strHas_left (r t : String) : strHas (r ++ t) r = true := by
  unfold strHas
  rw [String.data_append]
  exact occursIn_self _ _

/-- The requirement string at the front of `(req ++ mid) ++ tail`. -/
theorem strHas_first (r s t : String) : strHas (r ++ s ++ t) r = true := by
  unfold strHas
  rw [String.data_append, String.data_append, List.append_assoc]
  exact occursIn_self _ _

/-- A whole trailing component of `head ++ tail` is contained in it. -/
theorem strHas_right (s t : String) : strHas (s ++ t) t = true := by
  unfold strHas
  rw [String.data_append]
  exact occursIn_append _ _ _ (occursIn_refl _)

/-- A piece of the tail `lit = pre ++ (d ++ post)` is contained in `r ++ lit`. -/
theorem strHas_parts (r lit pre d post : String)
    (h : lit.data = pre.data ++ (d.data ++ post.data)) :
    strHas (r ++ lit) d = true := by
  unfold strHas
  rw [String.data_append, h]
  exact occursIn_append _ _ _ (occursIn_append _ _ _ (occursIn_self _ _))

theorem headMatches_mono (n m t : List Char) (h : headMatches n m = true) :
    headMatches n (m ++ t) = true := by
  induction n generalizing m with
  | nil => rfl
  | cons x xs ih =>
    cases m with
    | nil => simp [headMatches] at h
    | cons y ys =>
      rw [List.cons_append]
      simp only [headMatches, Bool.and_eq_true] at h ⊢
      exact ⟨h.1, ih ys h.2⟩

theorem occursIn_mono (n m t : List Char) (h : occursIn n m = true) :
    occursIn n (m ++ t) = true := by
  induction m with
  | nil =>
    have hn : headMatches n [] = true := by simpa [occursIn] using h
    have hnil : n = [] := by
      cases n with
      | nil => rfl
      | cons x xs => simp [headMatches] at hn
    subst hnil
    cases t <;> simp [occursIn, headMatches]
  | cons c cs ih =>
    rw [List.cons_append]
    simp only [occursIn, Bool.or_eq_true] at h ⊢
    rcases h with h | h
    · exact Or.inl (headMatches_mono _ _ _ h)
    · exact Or.inr (ih h)

/-- An occurrence inside `x` survives appending more text after `x`. -/
theorem strHas_extend (x u r : String) (h : strHas x r = true) :
    strHas (x ++ u) r = true := by
  unfold strHas at h ⊢
  rw [String.data_append]
  exact occursIn_mono _ _ _ h

/-- Every string contains itself. -/
theorem strHas_refl (r : String) : strHas r r = true := occursIn_refl r.data

/-- Evaluate a property of the failure message, trivially true on success. -/
def onError {α : Type} (r : UiuaResult α) (p : String → Prop) : Prop :=
  match r with
  | .ok _ => True
  | .error e => p e.message

/-- The exact defect contract shared by the scalar extractors `as_bool` and
`as_int`: a positive-rank Num or Byte operand's failure names the operand's
actual rank; a rank-0 Num failure is precisely the fractional-part rejection
and names it; Char and Func failures name the operand's actual type. -/
def fractScalarDefect (m : String) : Value → Prop
  | .Num a => (a.rank > 0 ∧ strHas m (toString a.rank) = true)
      ∨ (¬ a.rank > 0 ∧ f64Epsilon < ratAbs (fract (a.data.headD 0))
          ∧ strHas m "has a fractional part" = true)
  | .Byte a => a.rank > 0 ∧ strHas m (toString a.rank) = true
  | .Char _ => strHas m "character" = true
  | .Func _ => strHas m "function" = true

/-- The exact defect contract of `as_nat` failures: the actual rank for a
positive-rank numeric operand; "is negative" exactly when the rank-0 Num value
is negative; "has a fractional part" exactly when it is non-negative with a
large fractional part; the actual type name for Char and Func. -/
def asNatDefect (m : String) : Value → Prop
  | .Num a => (a.rank > 0 ∧ strHas m (toString a.rank) = true)
      ∨ (¬ a.rank > 0 ∧ a.data.headD 0 < 0 ∧ strHas m "is negative" = true)
      ∨ (¬ a.rank > 0 ∧ ¬ a.data.headD 0 < 0
          ∧ f64Epsilon < ratAbs (fract (a.data.headD 0))
          ∧ strHas m "has a fractional part" = true)
  | .Byte a => a.rank > 0 ∧ strHas m (toString a.rank) = true
  | .Char _ => strHas m "character" = true
  | .Func _ => strHas m "function" = true

/-- The exact defect contract of `as_num` failures: numeric operands fail only
with a positive rank, naming it; Char and Func failures name the type. -/
def rankOnlyScalarDefect (m : String) : Value → Prop
  | .Num a => a.rank > 0 ∧ strHas m (toString a.rank) = true
  | .Byte a => a.rank > 0 ∧ strHas m (toString a.rank) = true
  | .Char _ => strHas m "character" = true
  | .Func _ => strHas m "function" = true

/-- The exact defect contract of the numeric list extractors: a rank failure
(rank above 1) names the actual rank, a kind failure names the actual type
name, and a value-domain failure (rank at most 1, some element failing the
extractor's test) carries exactly the bare requirement string. -/
def listExtractDefect (test : ℚ → Bool) (req m : String) : Value → Prop
  | .Num a => (a.rank > 1 ∧ strHas m (toString a.rank) = true)
      ∨ (¬ a.rank > 1 ∧ a.data.all test = false ∧ m = req)
  | .Byte a => (a.rank > 1 ∧ strHas m (toString a.rank) = true)
      ∨ (¬ a.rank > 1 ∧ (a.data.map byteToDouble).all test = false ∧ m = req)
  | .Char _ => strHas m "character" = true
  | .Func _ => strHas m "function" = true

/-- The exact defect contract of `as_string` failures: a Char operand fails
only with rank above 1, naming it; every other kind fails naming its type. -/
def asStringDefect (m : String) : Value → Prop
  | .Char a => a.rank > 1 ∧ strHas m (toString a.rank) = true
  | .Num _ => strHas m "number" = true
  | .Byte _ => strHas m "number" = true
  | .Func _ => strHas m "function" = true

/-- The exact defect contract of `into_bytes` failures: a non-Func operand
fails only with rank different from 1, naming the actual rank; a Func operand
fails naming its type. -/
def intoBytesDefect (m : String) : Value → Prop
  | .Func _ => strHas m "function" = true
  | .Num a => ¬ a.rank = 1 ∧ strHas m (toString a.rank) = true
  | .Byte a => ¬ a.rank = 1 ∧ strHas m (toString a.rank) = true
  | .Char a => ¬ a.rank = 1 ∧ strHas m (toString a.rank) = true

theorem numberListLoop_isOk {T : Type} (env : Uiua) (req : String)
    (test : ℚ → Bool) (conv : ℚ → T) (xs : List ℚ) :
    resultIsOk (numberListLoop env req test conv xs) = xs.all test := by
  induction xs with
  | nil => rfl
  | cons x xs ih =>
    by_cases h : test x
    · cases hr : numberListLoop env req test conv xs with
      | ok r =>
        rw [hr] at ih
        simp [numberListLoop, h, hr, resultIsOk, List.all_cons, ← ih]
      | error e =>
        rw [hr] at ih
        simp [numberListLoop, h, hr, resultIsOk, List.all_cons, ← ih]
    · simp [numberListLoop, h, resultIsOk, List.all_cons]

theorem numberListLoop_all_ok {T : Type} (env : Uiua) (req : String)
    (test : ℚ → Bool) (conv : ℚ → T) (xs : List ℚ) (h : xs.all test = true) :
    numberListLoop env req test conv xs = .ok (xs.map conv) := by
  induction xs with
  | nil => rfl
  | cons x xs ih =>
    rw [List.all_cons, Bool.and_eq_true] at h
    simp [numberListLoop, h.1, ih h.2]

theorem numberListLoop_domain_err {T : Type} (env : Uiua) (req : String)
    (test : ℚ → Bool) (conv : ℚ → T) (xs : List ℚ) (h : xs.all test = false) :
    numberListLoop env req test conv xs = .error (env.error req) := by
  induction xs with
  | nil => simp [List.all_nil] at h
  | cons x xs ih =>
    rw [List.all_cons, Bool.and_eq_false_iff] at h
    by_cases hx : test x
    · have hxs : xs.all test = false := by
        cases h with
        | inl h => rw [hx] at h; cases h
        | inr h => exact h
      simp [numberListLoop, hx, ih hxs]
    · simp [numberListLoop, hx]

theorem pervadeLoop_ok {α β γ : Type} (f : α → β → γ) (xs : List α) (ys : List β)
    (h : xs.length = ys.length) :
    pervadeLoop (fun x y => .ok (f x y)) xs ys = .ok (List.zipWith f xs ys) := by
  induction xs generalizing ys with
  | nil =>
    cases ys with
    | nil => rfl
    | cons y ys => simp at h
  | cons x xs ih =>
    cases ys with
    | nil => simp at h
    | cons y ys =>
      have h' : xs.length = ys.length := by simpa using h
      simp [pervadeLoop, ih ys h', List.zipWith]

theorem pervadeLoop_sub_err (xs ys : List Nat) (h : xs.length = ys.length)
    (hneg : ∃ p ∈ xs.zip ys, p.2 < p.1) :
    pervadeLoop subByteByte xs ys
      = .error (fillError "Cannot subtract a byte from a smaller byte") := by
  induction xs generalizing ys with
  | nil =>
    obtain ⟨p, hp, _⟩ := hneg
    simp at hp
  | cons x xs ih =>
    cases ys with
    | nil => simp at h
    | cons y ys =>
      by_cases hxy : x ≤ y
      · obtain ⟨p, hp, hlt⟩ := hneg
        rw [List.zip_cons_cons, List.mem_cons] at hp
        have htail : p ∈ xs.zip ys := by
          cases hp with
          | inl hp =>
            rw [hp] at hlt
            exact absurd hlt (Nat.not_lt.mpr hxy)
          | inr hp => exact hp
        have h' : xs.length = ys.length := by simpa using h
        simp [pervadeLoop, subByteByte, hxy, ih ys h' ⟨p, htail, hlt⟩]
      · simp [pervadeLoop, subByteByte, hxy, fillError]

theorem hasMixedArms_of_ne (op : BinPrim) (h : op ≠ .atan2) : hasMixedArms op = true := by
  cases op <;> first | rfl | exact absurd rfl h

theorem bin_pervade_ok {α β γ : Type} (f : α → β → γ) (a : Array α) (b : Array β)
    (hs : a.shape = b.shape) (hl : a.data.length = b.data.length) :
    bin_pervade a b (fun x y => .ok (f x y))
      = .ok ⟨a.shape, List.zipWith f a.data b.data⟩ := by
  simp [bin_pervade, hs, pervadeLoop_ok f a.data b.data hl]

/-- Acceptance condition of the numeric list extractors: a Num or Byte operand
of rank at most 1 all of whose elements pass the extractor's value test. -/
def listExtractAccepts (test : ℚ → Bool) : Value → Bool
  | .Num a => decide (a.rank ≤ 1) && a.data.all test
  | .Byte a => decide (a.rank ≤ 1) && a.data.all (fun b => test (byteToDouble b))
  | _ => false

/-- Acceptance condition of `as_string`: a Char operand of rank at most 1. -/
def stringExtractAccepts : Value → Bool
  | .Char a => decide (a.rank ≤ 1)
  | _ => false

/-- Acceptance condition of `into_bytes`: a non-Func operand of rank exactly 1. -/
def bytesExtractAccepts : Value → Bool
  | .Func _ => false
  | v => decide (v.rank = 1)

theorem all_map_test {α β : Type} (f : α → β) (p : β → Bool) (l : List α) :
    (l.map f).all p = l.all (fun b => p (f b)) := by
  induction l with
  | nil => rfl
  | cons x xs ih => simp [ih]

theorem as_number_list_isOk {T : Type} (env : Uiua) (req : String)
    (test : ℚ → Bool) (conv : ℚ → T) (v : Value) :
    resultIsOk (v.as_number_list env req test conv) = listExtractAccepts test v := by
  cases v with
  | Num a =>
    by_cases hr : a.rank > 1
    · have hle : ¬ a.rank ≤ 1 := by omega
      simp [Value.as_number_list, hr, resultIsOk, listExtractAccepts, hle]
    · have hle : a.rank ≤ 1 := by omega
      simp [Value.as_number_list, hr, numberListLoop_isOk, listExtractAccepts, hle]
  | Byte a =>
    by_cases hr : a.rank > 1
    · have hle : ¬ a.rank ≤ 1 := by omega
      simp [Value.as_number_list, hr, resultIsOk, listExtractAccepts, hle]
    · have hle : a.rank ≤ 1 := by omega
      simp [Value.as_number_list, hr, numberListLoop_isOk, listExtractAccepts, hle,
        all_map_test]
  | Char a => simp [Value.as_number_list, resultIsOk, listExtractAccepts]
  | Func a => simp [Value.as_number_list, resultIsOk, listExtractAccepts]

/-- C6 counterexample: `into_bytes` on a rank-0 Byte operand — right kind,
rank not exceeding 1, no element-domain violation — still fails. -/
theorem c6_counterexample :
    (Value.Byte ⟨[], [7]⟩).rank = 0
    ∧ (Value.Byte ⟨[], [7]⟩).into_bytes ⟨none⟩ "R"
        = .error ⟨"R, but its rank is 0", false⟩ := by
  decide

/-- C6 (amended): `as_indices`, `as_naturals`, `as_integers` succeed exactly on
Num/Byte operands of rank at most 1 whose elements all satisfy the extractor's
value-domain test; `as_string` succeeds exactly on Char operands of rank at
most 1; `into_bytes` succeeds exactly on non-Func operands of rank exactly 1
(rank 0 is rejected, and no element-domain check is performed). -/
theorem c6_amended :
    (∀ (env : Uiua) (req : String) (v : Value),
      resultIsOk (v.as_indices env req)
        = listExtractAccepts (fun f => remOne f == 0) v)
    ∧ (∀ (env : Uiua) (req : String) (v : Value),
      resultIsOk (v.as_naturals env req)
        = listExtractAccepts (fun f => fract f == 0 && decide (0 ≤ f)) v)
    ∧ (∀ (env : Uiua) (req : String) (v : Value),
      resultIsOk (v.as_integers env req)
        = listExtractAccepts (fun f => fract f == 0) v)
    ∧ (∀ (env : Uiua) (req : String) (v : Value),
      resultIsOk (v.as_string env req) = stringExtractAccepts v)
    ∧ (∀ (env : Uiua) (req : String) (v : Value),
      resultIsOk (v.into_bytes env req) = bytesExtractAccepts v) := by
  refine ⟨fun env req v => as_number_list_isOk env req _ _ v,
    fun env req v => as_number_list_isOk env req _ _ v,
    fun env req v => as_number_list_isOk env req _ _ v,
    fun env req v => ?_, fun env req v => ?_⟩
  · cases v with
    | Char a =>
      by_cases hr : a.rank > 1
      · have hle : ¬ a.rank ≤ 1 := by omega
        simp [Value.as_string, hr, resultIsOk, stringExtractAccepts, hle]
      · have hle : a.rank ≤ 1 := by omega
        simp [Value.as_string, hr, resultIsOk, stringExtractAccepts, hle]
    | Num a => simp [Value.as_string, resultIsOk, stringExtractAccepts]
    | Byte a => simp [Value.as_string, resultIsOk, stringExtractAccepts]
    | Func a => simp [Value.as_string, resultIsOk, stringExtractAccepts]
  · cases v with
    | Byte a =>
      by_cases hr : a.shape.length = 1 <;>
        simp [Value.into_bytes, hr, resultIsOk, bytesExtractAccepts,
          Value.rank, Value.shape, Array.rank]
    | Num a =>
      by_cases hr : a.shape.length = 1 <;>
        simp [Value.into_bytes, hr, resultIsOk, bytesExtractAccepts,
          Value.rank, Value.shape, Array.rank]
    | Char a =>
      by_cases hr : a.shape.length = 1 <;>
        simp [Value.into_bytes, hr, resultIsOk, bytesExtractAccepts,
          Value.rank, Value.shape, Array.rank]
    | Func a => simp [Value.into_bytes, resultIsOk, bytesExtractAccepts]

theorem as_number_list_err_prop {T : Type} (env : Uiua) (req : String)
    (test : ℚ → Bool) (conv : ℚ → T) (v : Value) :
    onError (v.as_number_list env req test conv)
      (fun m => strHas m req = true ∧ listExtractDefect test req m v) := by
  cases v with
  | Num a =>
    by_cases hr : a.rank > 1
    · simp only [Value.as_number_list]
      rw [if_pos hr]
      simp only [onError, Uiua.error, listExtractDefect]
      exact ⟨strHas_first _ _ _, Or.inl ⟨hr, strHas_right _ _⟩⟩
    · simp only [Value.as_number_list]
      rw [if_neg hr]
      cases hv : a.data.all test
      · have hd := numberListLoop_domain_err env req test conv a.data hv
        rw [hd]
        simp only [onError, Uiua.error, listExtractDefect]
        exact ⟨strHas_refl req, Or.inr ⟨hr, hv, by trivial⟩⟩
      · have hd := numberListLoop_all_ok env req test conv a.data hv
        rw [hd]
        exact trivial
  | Byte a =>
    by_cases hr : a.rank > 1
    · simp only [Value.as_number_list]
      rw [if_pos hr]
      simp only [onError, Uiua.error, listExtractDefect]
      exact ⟨strHas_first _ _ _, Or.inl ⟨hr, strHas_right _ _⟩⟩
    · simp only [Value.as_number_list]
      rw [if_neg hr]
      cases hv : (a.data.map byteToDouble).all test
      · have hd := numberListLoop_domain_err env req test conv _ hv
        rw [hd]
        simp only [onError, Uiua.error, listExtractDefect]
        exact ⟨strHas_refl req, Or.inr ⟨hr, hv, by trivial⟩⟩
      · have hd := numberListLoop_all_ok env req test conv _ hv
        rw [hd]
        exact trivial
  | Char a =>
    simp only [Value.as_number_list, onError, Uiua.error, listExtractDefect]
    exact ⟨strHas_extend _ _ _ (strHas_first _ _ _),
      strHas_extend _ _ _ (strHas_right _ _)⟩
  | Func a =>
    simp only [Value.as_number_list, onError, Uiua.error, listExtractDefect]
    exact ⟨strHas_extend _ _ _ (strHas_first _ _ _),
      strHas_extend _ _ _ (strHas_right _ _)⟩

theorem as_bool_err_prop (env : Uiua) (req : String) (v : Value) :
    onError (v.as_bool env req)
      (fun m => strHas m req = true ∧ fractScalarDefect m v) := by
  cases v with
  | Num a =>
    by_cases hr : a.rank > 0
    · simp only [Value.as_bool]
      rw [if_pos hr]
      simp only [onError, Uiua.error, fractScalarDefect]
      exact ⟨strHas_first _ _ _, Or.inl ⟨hr, strHas_right _ _⟩⟩
    · by_cases hf : f64Epsilon < ratAbs (fract (a.data.headD 0))
      · simp only [Value.as_bool]
        rw [if_neg hr, if_pos hf]
        simp only [onError, Uiua.error, fractScalarDefect]
        refine ⟨strHas_left _ _, Or.inr ⟨hr, hf, ?_⟩⟩
        exact strHas_parts req ", but it has a fractional part"
          ", but it " "has a fractional part" "" (by decide)
      · simp only [Value.as_bool]
        rw [if_neg hr, if_neg hf]
        exact trivial
  | Byte a =>
    by_cases hr : a.rank > 0
    · simp only [Value.as_bool]
      rw [if_pos hr]
      simp only [onError, Uiua.error, fractScalarDefect]
      exact ⟨strHas_first _ _ _, hr, strHas_right _ _⟩
    · simp only [Value.as_bool]
      rw [if_neg hr]
      exact trivial
  | Char a =>
    simp only [Value.as_bool, onError, Uiua.error, fractScalarDefect]
    exact ⟨strHas_first _ _ _, strHas_right _ _⟩
  | Func a =>
    simp only [Value.as_bool, onError, Uiua.error, fractScalarDefect]
    exact ⟨strHas_first _ _ _, strHas_right _ _⟩

theorem as_nat_err_prop (env : Uiua) (req : String) (v : Value) :
    onError (v.as_nat env req)
      (fun m => strHas m req = true ∧ asNatDefect m v) := by
  cases v with
  | Num a =>
    by_cases hr : a.rank > 0
    · simp only [Value.as_nat]
      rw [if_pos hr]
      simp only [onError, Uiua.error, asNatDefect]
      exact ⟨strHas_first _ _ _, Or.inl ⟨hr, strHas_right _ _⟩⟩
    · by_cases hn : a.data.headD 0 < 0
      · simp only [Value.as_nat]
        rw [if_neg hr, if_pos hn]
        simp only [onError, Uiua.error, asNatDefect]
        refine ⟨strHas_left _ _, Or.inr (Or.inl ⟨hr, hn, ?_⟩)⟩
        exact strHas_parts req ", but it is negative" ", but it " "is negative" ""
          (by decide)
      · by_cases hf : f64Epsilon < ratAbs (fract (a.data.headD 0))
        · simp only [Value.as_nat]
          rw [if_neg hr, if_neg hn, if_pos hf]
          simp only [onError, Uiua.error, asNatDefect]
          refine ⟨strHas_left _ _, Or.inr (Or.inr ⟨hr, hn, hf, ?_⟩)⟩
          exact strHas_parts req ", but it has a fractional part"
            ", but it " "has a fractional part" "" (by decide)
        · simp only [Value.as_nat]
          rw [if_neg hr, if_neg hn, if_neg hf]
          exact trivial
  | Byte a =>
    by_cases hr : a.rank > 0
    · simp only [Value.as_nat]
      rw [if_pos hr]
      simp only [onError, Uiua.error, asNatDefect]
      exact ⟨strHas_first _ _ _, hr, strHas_right _ _⟩
    · simp only [Value.as_nat]
      rw [if_neg hr]
      exact trivial
  | Char a =>
    simp only [Value.as_nat, onError, Uiua.error, asNatDefect]
    exact ⟨strHas_first _ _ _, strHas_right _ _⟩
  | Func a =>
    simp only [Value.as_nat, onError, Uiua.error, asNatDefect]
    exact ⟨strHas_first _ _ _, strHas_right _ _⟩

theorem as_int_err_prop (env : Uiua) (req : String) (v : Value) :
    onError (v.as_int env req)
      (fun m => strHas m req = true ∧ fractScalarDefect m v) := by
  cases v with
  | Num a =>
    by_cases hr : a.rank > 0
    · simp only [Value.as_int]
      rw [if_pos hr]
      simp only [onError, Uiua.error, fractScalarDefect]
      exact ⟨strHas_first _ _ _, Or.inl ⟨hr, strHas_right _ _⟩⟩
    · by_cases hf : f64Epsilon < ratAbs (fract (a.data.headD 0))
      · simp only [Value.as_int]
        rw [if_neg hr, if_pos hf]
        simp only [onError, Uiua.error, fractScalarDefect]
        refine ⟨strHas_left _ _, Or.inr ⟨hr, hf, ?_⟩⟩
        exact strHas_parts req ", but it has a fractional part"
          ", but it " "has a fractional part" "" (by decide)
      · simp only [Value.as_int]
        rw [if_neg hr, if_neg hf]
        exact trivial
  | Byte a =>
    by_cases hr : a.rank > 0
    · simp only [Value.as_int]
      rw [if_pos hr]
      simp only [onError, Uiua.error, fractScalarDefect]
      exact ⟨strHas_first _ _ _, hr, strHas_right _ _⟩
    · simp only [Value.as_int]
      rw [if_neg hr]
      exact trivial
  | Char a =>
    simp only [Value.as_int, onError, Uiua.error, fractScalarDefect]
    exact ⟨strHas_first _ _ _, strHas_right _ _⟩
  | Func a =>
    simp only [Value.as_int, onError, Uiua.error, fractScalarDefect]
    exact ⟨strHas_first _ _ _, strHas_right _ _⟩

theorem as_num_err_prop (env : Uiua) (req : String) (v : Value) :
    onError (v.as_num env req)
      (fun m => strHas m req = true ∧ rankOnlyScalarDefect m v) := by
  cases v with
  | Num a =>
    by_cases hr : a.rank > 0
    · simp only [Value.as_num]
      rw [if_pos hr]
      simp only [onError, Uiua.error, rankOnlyScalarDefect]
      exact ⟨strHas_first _ _ _, hr, strHas_right _ _⟩
    · simp only [Value.as_num]
      rw [if_neg hr]
      exact trivial
  | Byte a =>
    by_cases hr : a.rank > 0
    · simp only [Value.as_num]
      rw [if_pos hr]
      simp only [onError, Uiua.error, rankOnlyScalarDefect]
      exact ⟨strHas_first _ _ _, hr, strHas_right _ _⟩
    · simp only [Value.as_num]
      rw [if_neg hr]
      exact trivial
  | Char a =>
    simp only [Value.as_num, onError, Uiua.error, rankOnlyScalarDefect]
    exact ⟨strHas_first _ _ _, strHas_right _ _⟩
  | Func a =>
    simp only [Value.as_num, onError, Uiua.error, rankOnlyScalarDefect]
    exact ⟨strHas_first _ _ _, strHas_right _ _⟩

theorem as_string_err_prop (env : Uiua) (req : String) (v : Value) :
    onError (v.as_string env req)
      (fun m => strHas m req = true ∧ asStringDefect m v) := by
  cases v with
  | Char a =>
    by_cases hr : a.rank > 1
    · simp only [Value.as_string]
      rw [if_pos hr]
      simp only [onError, Uiua.error, asStringDefect]
      exact ⟨strHas_first _ _ _, hr, strHas_right _ _⟩
    · simp only [Value.as_string]
      rw [if_neg hr]
      exact trivial
  | Num a =>
    simp only [Value.as_string, onError, Uiua.error, asStringDefect]
    exact ⟨strHas_first _ _ _, strHas_right _ _⟩
  | Byte a =>
    simp only [Value.as_string, onError, Uiua.error, asStringDefect]
    exact ⟨strHas_first _ _ _, strHas_right _ _⟩
  | Func a =>
    simp only [Value.as_string, onError, Uiua.error, asStringDefect]
    exact ⟨strHas_first _ _ _, strHas_right _ _⟩

theorem into_bytes_err_prop (env : Uiua) (req : String) (v : Value) :
    onError (v.into_bytes env req)
      (fun m => strHas m req = true ∧ intoBytesDefect m v) := by
  cases v with
  | Byte a =>
    by_cases hr : a.rank = 1
    · simp only [Value.into_bytes]
      rw [if_neg (by simpa using hr)]
      exact trivial
    · simp only [Value.into_bytes]
      rw [if_pos hr]
      simp only [onError, Uiua.error, intoBytesDefect]
      exact ⟨strHas_first _ _ _, hr, strHas_right _ _⟩
  | Num a =>
    by_cases hr : a.rank = 1
    · simp only [Value.into_bytes]
      rw [if_neg (by simpa using hr)]
      exact trivial
    · simp only [Value.into_bytes]
      rw [if_pos hr]
      simp only [onError, Uiua.error, intoBytesDefect]
      exact ⟨strHas_first _ _ _, hr, strHas_right _ _⟩
  | Char a =>
    by_cases hr : a.rank = 1
    · simp only [Value.into_bytes]
      rw [if_neg (by simpa using hr)]
      exact trivial
    · simp only [Value.into_bytes]
      rw [if_pos hr]
      simp only [onError, Uiua.error, intoBytesDefect]
      exact ⟨strHas_first _ _ _, hr, strHas_right _ _⟩
  | Func a =>
    simp only [Value.into_bytes, onError, Uiua.error, intoBytesDefect]
    exact ⟨strHas_first _ _ _, strHas_right _ _⟩

/-- C2 counterexample: a value-domain violation in `as_naturals` (a negative
element) produces a failure whose message is the bare requirement string, with
no mention of the observed defect. -/
theorem c2_counterexample :
    Value.as_naturals (Value.Num ⟨[1], [-1]⟩) ⟨none⟩ "Requirement"
      = .error ⟨"Requirement", false⟩
    ∧ strHas "Requirement" "is negative" = false := by
  decide

/-- C2 (amended): every failure of the validated extractors carries a message
containing the caller-supplied requirement string together with the specific
defect observed — the actual rank on a rank failure, "is negative" or
"has a fractional part" on the corresponding scalar value failure, the actual
type name on a kind failure — except that a value-domain violation in the
list extractors `as_indices` / `as_naturals` / `as_integers` (rank at most 1,
some element failing the test) produces a message that is exactly the bare
requirement string. -/
theorem c2_amended :
    (∀ (env : Uiua) (req : String) (v : Value),
      onError (v.as_bool env req)
        (fun m => strHas m req = true ∧ fractScalarDefect m v))
    ∧ (∀ (env : Uiua) (req : String) (v : Value),
      onError (v.as_nat env req)
        (fun m => strHas m req = true ∧ asNatDefect m v))
    ∧ (∀ (env : Uiua) (req : String) (v : Value),
      onError (v.as_int env req)
        (fun m => strHas m req = true ∧ fractScalarDefect m v))
    ∧ (∀ (env : Uiua) (req : String) (v : Value),
      onError (v.as_num env req)
        (fun m => strHas m req = true ∧ rankOnlyScalarDefect m v))
    ∧ (∀ (env : Uiua) (req : String) (v : Value),
      onError (v.as_indices env req)
        (fun m => strHas m req = true
          ∧ listExtractDefect (fun f => remOne f == 0) req m v))
    ∧ (∀ (env : Uiua) (req : String) (v : Value),
      onError (v.as_naturals env req)
        (fun m => strHas m req = true
          ∧ listExtractDefect (fun f => fract f == 0 && decide (0 ≤ f)) req m v))
    ∧ (∀ (env : Uiua) (req : String) (v : Value),
      onError (v.as_integers env req)
        (fun m => strHas m req = true
          ∧ listExtractDefect (fun f => fract f == 0) req m v))
    ∧ (∀ (env : Uiua) (req : String) (v : Value),
      onError (v.as_string env req)
        (fun m => strHas m req = true ∧ asStringDefect m v))
    ∧ (∀ (env : Uiua) (req : String) (v : Value),
      onError (v.into_bytes env req)
        (fun m => strHas m req = true ∧ intoBytesDefect m v)) :=
  ⟨as_bool_err_prop, as_nat_err_prop, as_int_err_prop, as_num_err_prop,
   fun env req v => as_number_list_err_prop env req _ _ v,
   fun env req v => as_number_list_err_prop env req _ _ v,
   fun env req v => as_number_list_err_prop env req _ _ v,
   as_string_err_prop, into_bytes_err_prop⟩

theorem den_eq_one_of_fract_eq_zero (q : ℚ) (h : fract q = 0) : q.den = 1 := by
  have hd0 : ((q.den : Int)) ≠ 0 := by
    exact_mod_cast q.den_pos.ne'
  have htm : q.num.tmod (q.den : Int) = 0 := by
    unfold fract at h
    exact (Rat.divInt_eq_zero hd0).mp h
  have hdvd : ((q.den : Int)) ∣ q.num := Int.dvd_of_tmod_eq_zero htm
  have hdvdn : q.den ∣ q.num.natAbs := by
    have h2 := Int.natAbs_dvd_natAbs.mpr hdvd
    simpa using h2
  exact Nat.Coprime.eq_one_of_dvd q.reduced.symm hdvdn

/-- A double in [0,255] with zero fractional part survives the `as u8` cast
and the widening back to double. -/
theorem byteRoundtrip (q : ℚ) (h0 : fract q = 0) (h1 : 0 ≤ q) (h2 : q ≤ 255) :
    byteToDouble (ratToU8 q) = q := by
  have hden := den_eq_one_of_fract_eq_zero q h0
  have hq : (q.num : ℚ) = q := Rat.coe_int_num_of_den_eq_one hden
  have hnum0 : 0 ≤ q.num := Rat.num_nonneg.mpr h1
  have hnum255 : q.num ≤ 255 := by
    have hc : (q.num : ℚ) ≤ ((255 : Int) : ℚ) := by
      rw [hq]
      exact_mod_cast h2
    exact_mod_cast hc
  by_cases hle : q ≤ 0
  · have hq0 : q = 0 := le_antisymm hle h1
    subst hq0
    simp [ratToU8, byteToDouble]
  · unfold ratToU8 byteToDouble
    rw [if_neg hle]
    have hfloor : q.floor = q.num := by simp [Rat.floor, hden]
    rw [hfloor]
    have hmin : min 255 q.num.toNat = q.num.toNat := by omega
    rw [hmin, ← hq]
    have htn : ((q.num.toNat : Nat) : Int) = q.num := Int.toNat_of_nonneg hnum0
    exact_mod_cast htn

/-- C5: a Num array all of whose elements are integers in [0,255] is rewritten
by `compress` into a Byte-backed Value equal (==) to the original, and
compressing twice equals compressing once. -/
theorem c5_compress :
    ∀ a : Array ℚ,
      (∀ x ∈ a.data, fract x = 0 ∧ 0 ≤ x ∧ x ≤ 255) →
      (Value.Num a).compress = Value.Byte ⟨a.shape, a.data.map ratToU8⟩
      ∧ valueEq (Value.Num a) ((Value.Num a).compress) = true
      ∧ ((Value.Num a).compress).compress = (Value.Num a).compress := by
  intro a h
  have hall : a.data.all (fun n => fract n == 0 && decide (n ≤ 255) && decide (0 ≤ n))
      = true := by
    rw [List.all_eq_true]
    intro x hx
    obtain ⟨h1, h2, h3⟩ := h x hx
    simp [h1, h2, h3]
  have hcomp : (Value.Num a).compress = Value.Byte ⟨a.shape, a.data.map ratToU8⟩ := by
    simp [Value.compress, hall]
  have hmap : (a.data.map ratToU8).map byteToDouble = a.data := by
    rw [List.map_map]
    have hpt : ∀ x ∈ a.data, (byteToDouble ∘ ratToU8) x = x := by
      intro x hx
      obtain ⟨h1, h2, h3⟩ := h x hx
      exact byteRoundtrip x h1 h2 h3
    rw [List.map_congr_left hpt]
    simp
  refine ⟨hcomp, ?_, ?_⟩
  · rw [hcomp]
    simp [valueEq, numByteArrEq, Array.beq, Array.convert, hmap]
  · rw [hcomp]
    rfl

/-- C5 witness: the compression contract applied at a concrete integral Num
array. -/
theorem c5_compress_witness :
    (Value.Num ⟨[2], [3, 255]⟩).compress = Value.Byte ⟨[2], [3, 255].map ratToU8⟩
    ∧ valueEq (Value.Num ⟨[2], [3, 255]⟩) ((Value.Num ⟨[2], [3, 255]⟩).compress) = true
    ∧ ((Value.Num ⟨[2], [3, 255]⟩).compress).compress
        = (Value.Num ⟨[2], [3, 255]⟩).compress :=
  c5_compress ⟨[2], [3, 255]⟩ (by decide)

/-- C8: `type_name` returns "number" for both Num and Byte Values, "character"
for Char, and "function" for Func; consequently the type name never
distinguishes a Byte operand from a Num operand. -/
theorem c8_type_name :
    (∀ a : Array ℚ, (Value.Num a).type_name = "number")
    ∧ (∀ a : Array Nat, (Value.Byte a).type_name = "number")
    ∧ (∀ a : Array UChar, (Value.Char a).type_name = "character")
    ∧ (∀ a : Array Function, (Value.Func a).type_name = "function")
    ∧ ∀ (a : Array Nat) (b : Array ℚ),
        (Value.Byte a).type_name = (Value.Num b).type_name :=
  ⟨fun _ => rfl, fun _ => rfl, fun _ => rfl, fun _ => rfl, fun _ _ => rfl⟩

/-- C7: the first `add_row` call installs the row as the accumulator with a
leading dimension of size 1 inserted into its shape (so the accumulator's rank
is the row's rank plus one), and `finish()` on a builder to which no row was
ever added yields an empty Byte-kind array. -/
theorem c7_value_builder :
    (∀ (append : Value → Value → UiuaResult Value) (capacity : Nat) (row : Value),
      ValueBuilder.add_row append (ValueBuilder.with_capacity capacity) row
        = .ok ⟨some row.insertLeadingDim, 1, capacity⟩
      ∧ row.insertLeadingDim.shape = 1 :: row.shape
      ∧ row.insertLeadingDim.rank = row.rank + 1)
    ∧ (∀ capacity : Nat,
        (ValueBuilder.with_capacity capacity).finish = Value.Byte ⟨[0], []⟩)
    ∧ ValueBuilder.new.finish = Value.Byte ⟨[0], []⟩ := by
  refine ⟨fun append capacity row => ⟨rfl, ?_, ?_⟩, fun capacity => rfl, rfl⟩
  · cases row <;> rfl
  · cases row <;> rfl

/-- C9: `compress` leaves every non-Num Value (Byte, Char, Func) unchanged,
and leaves a Num Value unchanged whenever any element has a fractional part,
is negative, or exceeds 255. -/
theorem c9_compress_frame :
    (∀ a : Array Nat, (Value.Byte a).compress = .Byte a)
    ∧ (∀ a : Array UChar, (Value.Char a).compress = .Char a)
    ∧ (∀ a : Array Function, (Value.Func a).compress = .Func a)
    ∧ ∀ a : Array ℚ,
        (∃ x ∈ a.data, fract x ≠ 0 ∨ x < 0 ∨ 255 < x) →
        (Value.Num a).compress = .Num a := by
  refine ⟨fun _ => rfl, fun _ => rfl, fun _ => rfl, fun a hx => ?_⟩
  have hall : a.data.all (fun n => fract n == 0 && decide (n ≤ 255) && decide (0 ≤ n))
      = false := by
    rw [List.all_eq_false]
    obtain ⟨x, hmem, hbad⟩ := hx
    refine ⟨x, hmem, fun hp => ?_⟩
    rw [Bool.and_eq_true, Bool.and_eq_true] at hp
    rcases hbad with h | h | h
    · exact h (beq_iff_eq.mp hp.1.1)
    · exact absurd (of_decide_eq_true hp.2) (not_le.mpr h)
    · exact absurd (of_decide_eq_true hp.1.2) (not_le.mpr h)
  simp [Value.compress, hall]

/-- C9 witness: the frame conditions at concrete inputs, the Num hypothesis
discharged at an array with a fractional element. -/
theorem c9_compress_frame_witness :
    (Value.Byte ⟨[1], [3]⟩).compress = .Byte ⟨[1], [3]⟩
    ∧ (Value.Num ⟨[1], [Rat.divInt 1 2]⟩).compress = .Num ⟨[1], [Rat.divInt 1 2]⟩ :=
  ⟨c9_compress_frame.1 ⟨[1], [3]⟩,
   c9_compress_frame.2.2.2 ⟨[1], [Rat.divInt 1 2]⟩
     ⟨Rat.divInt 1 2, by decide, Or.inl (by decide)⟩⟩

/-- C10: `as_bool` on a rank-0 Byte never fails and is true exactly on a
nonzero byte; on a rank-0 Num it fails exactly when the fractional part's
magnitude exceeds `f64::EPSILON` and is otherwise true exactly on a nonzero
number — no 0/1 range check in either case. -/
theorem c10_as_bool :
    (∀ (env : Uiua) (req : String) (b : Nat),
      Value.as_bool (.Byte ⟨[], [b]⟩) env req = .ok (decide (b ≠ 0)))
    ∧ ∀ (env : Uiua) (req : String) (q : ℚ),
        (f64Epsilon < ratAbs (fract q) →
          Value.as_bool (.Num ⟨[], [q]⟩) env req
            = .error (env.error (req ++ ", but it has a fractional part")))
        ∧ (¬ f64Epsilon < ratAbs (fract q) →
          Value.as_bool (.Num ⟨[], [q]⟩) env req = .ok (decide (q ≠ 0))) := by
  refine ⟨fun env req b => rfl, fun env req q => ⟨fun h => ?_, fun h => ?_⟩⟩
  · simp [Value.as_bool, Array.rank, h]
  · simp [Value.as_bool, Array.rank, h]

/-- C10 witness: a large byte is accepted as true (no 0/1 check), a fractional
number is rejected, an integral nonzero number is accepted as true. -/
theorem c10_as_bool_witness :
    Value.as_bool (.Byte ⟨[], [200]⟩) ⟨none⟩ "R" = .ok (decide ((200 : Nat) ≠ 0))
    ∧ Value.as_bool (.Num ⟨[], [Rat.divInt 5 2]⟩) ⟨none⟩ "R"
        = .error (Uiua.error ⟨none⟩ ("R" ++ ", but it has a fractional part"))
    ∧ Value.as_bool (.Num ⟨[], [7]⟩) ⟨none⟩ "R" = .ok (decide ((7 : ℚ) ≠ 0)) :=
  ⟨c10_as_bool.1 ⟨none⟩ "R" 200,
   (c10_as_bool.2 ⟨none⟩ "R" (Rat.divInt 5 2)).1 (by decide),
   (c10_as_bool.2 ⟨none⟩ "R" 7).2 (by decide)⟩

/-- C1 (code bug): a Byte array and the Num array holding the same numeric
content are equal and order identically (shown here in both directions at the
failing input, and identically against sample values of every other kind), yet
their hash streams differ, because `impl Hash for Value` prepends the kind
discriminant (0 for Num, 1 for Byte) before the array data. -/
theorem c1_num_byte_hash_divergence :
    valueEq (Value.Byte ⟨[2], [5, 0]⟩) (Value.Num ⟨[2], [5, 0]⟩) = true
    ∧ valueEq (Value.Num ⟨[2], [5, 0]⟩) (Value.Byte ⟨[2], [5, 0]⟩) = true
    ∧ valueCmp (Value.Byte ⟨[2], [5, 0]⟩) (Value.Num ⟨[2], [5, 0]⟩) = .eq
    ∧ valueCmp (Value.Num ⟨[2], [5, 0]⟩) (Value.Byte ⟨[2], [5, 0]⟩) = .eq
    ∧ valueCmp (Value.Byte ⟨[2], [5, 0]⟩) (Value.Num ⟨[1], [3]⟩)
        = valueCmp (Value.Num ⟨[2], [5, 0]⟩) (Value.Num ⟨[1], [3]⟩)
    ∧ valueCmp (Value.Byte ⟨[2], [5, 0]⟩) (Value.Byte ⟨[2], [5, 1]⟩)
        = valueCmp (Value.Num ⟨[2], [5, 0]⟩) (Value.Byte ⟨[2], [5, 1]⟩)
    ∧ valueCmp (Value.Byte ⟨[2], [5, 0]⟩) (Value.Char ⟨[1], ['x']⟩)
        = valueCmp (Value.Num ⟨[2], [5, 0]⟩) (Value.Char ⟨[1], ['x']⟩)
    ∧ valueCmp (Value.Byte ⟨[2], [5, 0]⟩) (Value.Func ⟨[], [⟨0⟩]⟩)
        = valueCmp (Value.Num ⟨[2], [5, 0]⟩) (Value.Func ⟨[], [⟨0⟩]⟩)
    ∧ valueHashTokens (Value.Byte ⟨[2], [5, 0]⟩)
        ≠ valueHashTokens (Value.Num ⟨[2], [5, 0]⟩) := by
  decide

/-- C3 counterexample: `atan2`, a member of the spec's binary set, has no
numeric-mixed arm, so a Byte/Num operand pair is rejected with a type error
instead of being promoted — its result does not equal applying the operation
to both operands as Num. -/
theorem c3_counterexample :
    binDispatch .atan2 (fun _ _ => 0) ⟨none⟩ (.Byte ⟨[], [1]⟩) (.Num ⟨[], [1]⟩)
      = .error (Uiua.error ⟨none⟩ "Cannot atan2 number and number")
    ∧ binDispatch .atan2 (fun _ _ => 0) ⟨none⟩ (.Byte ⟨[], [1]⟩) (.Num ⟨[], [1]⟩)
      ≠ binDispatch .atan2 (fun _ _ => 0) ⟨none⟩ (.Num ⟨[], [1]⟩) (.Num ⟨[], [1]⟩) := by
  decide

/-- C3 (amended): for every op of the binary set except `atan2`, whatever its
Num scalar function, a numeric-mixed pair of matching shape promotes the Byte
side to Num, applies the Num scalar function elementwise, and the result
equals applying the operation to both operands as Num. -/
theorem c3_amended :
    ∀ (op : BinPrim), op ≠ .atan2 →
    ∀ (num_num : ℚ → ℚ → ℚ) (env : Uiua) (a : Array Nat) (b : Array ℚ),
      a.shape = b.shape → a.data.length = b.data.length →
      binDispatch op num_num env (.Byte a) (.Num b)
        = .ok (.Num ⟨a.shape, List.zipWith num_num (a.data.map byteToDouble) b.data⟩)
      ∧ binDispatch op num_num env (.Num b) (.Byte a)
        = .ok (.Num ⟨b.shape, List.zipWith num_num b.data (a.data.map byteToDouble)⟩)
      ∧ binDispatch op num_num env (.Byte a) (.Num b)
        = binDispatch op num_num env (.Num a.convert) (.Num b)
      ∧ binDispatch op num_num env (.Num b) (.Byte a)
        = binDispatch op num_num env (.Num b) (.Num a.convert) := by
  intro op hop f env a b hs hl
  have hm := hasMixedArms_of_ne op hop
  have hfwd : bin_pervade a b (fun x y => Except.ok (f (byteToDouble x) y))
      = .ok ⟨a.shape, List.zipWith (fun x y => f (byteToDouble x) y) a.data b.data⟩ :=
    bin_pervade_ok _ a b hs hl
  have hrev : bin_pervade b a (fun x y => Except.ok (f x (byteToDouble y)))
      = .ok ⟨b.shape, List.zipWith (fun x y => f x (byteToDouble y)) b.data a.data⟩ :=
    bin_pervade_ok _ b a hs.symm hl.symm
  have h1 : byteNumArm f env a b
      = .ok (.Num ⟨a.shape, List.zipWith f (a.data.map byteToDouble) b.data⟩) := by
    cases hf : env.num_fill.isSome <;>
      simp [byteNumArm, hf, hfwd, List.zipWith_map_left]
  have h2 : numByteArm f env b a
      = .ok (.Num ⟨b.shape, List.zipWith f b.data (a.data.map byteToDouble)⟩) := by
    cases hf : env.num_fill.isSome <;>
      simp [numByteArm, hf, hrev, List.zipWith_map_right]
  have h3 : numNumArm f env a.convert b
      = .ok (.Num ⟨a.shape, List.zipWith f (a.data.map byteToDouble) b.data⟩) := by
    have h := bin_pervade_ok f a.convert b hs (by simpa [Array.convert] using hl)
    simp only [Array.convert] at h
    simp [numNumArm, Array.convert, h]
  have h4 : numNumArm f env b a.convert
      = .ok (.Num ⟨b.shape, List.zipWith f b.data (a.data.map byteToDouble)⟩) := by
    have h := bin_pervade_ok f b a.convert hs.symm (by simpa [Array.convert] using hl.symm)
    simp only [Array.convert] at h
    simp [numNumArm, Array.convert, h]
  refine ⟨?_, ?_, ?_, ?_⟩ <;> simp [binDispatch, hm, h1, h2, h3, h4]

/-- C3 witness: the amended statement applied to `add`'s dispatch at concrete
matching-shape operands (with the left-projection scalar function, whose value
is irrelevant to the dispatch path taken). -/
theorem c3_amended_witness :
    BinPrim.add ≠ BinPrim.atan2
    ∧ (binDispatch .add (fun x _ => x) ⟨none⟩ (.Byte ⟨[2], [2, 3]⟩) (.Num ⟨[2], [4, 5]⟩)
        = .ok (.Num ⟨[2], List.zipWith (fun x _ => x) ([2, 3].map byteToDouble) [4, 5]⟩)
      ∧ binDispatch .add (fun x _ => x) ⟨none⟩ (.Num ⟨[2], [4, 5]⟩) (.Byte ⟨[2], [2, 3]⟩)
        = .ok (.Num ⟨[2], List.zipWith (fun x _ => x) [4, 5] ([2, 3].map byteToDouble)⟩)
      ∧ binDispatch .add (fun x _ => x) ⟨none⟩ (.Byte ⟨[2], [2, 3]⟩) (.Num ⟨[2], [4, 5]⟩)
        = binDispatch .add (fun x _ => x) ⟨none⟩
            (.Num (Array.convert ⟨[2], [2, 3]⟩)) (.Num ⟨[2], [4, 5]⟩)
      ∧ binDispatch .add (fun x _ => x) ⟨none⟩ (.Num ⟨[2], [4, 5]⟩) (.Byte ⟨[2], [2, 3]⟩)
        = binDispatch .add (fun x _ => x) ⟨none⟩
            (.Num ⟨[2], [4, 5]⟩) (.Num (Array.convert ⟨[2], [2, 3]⟩))) :=
  ⟨by decide,
   c3_amended .add (by decide) (fun x _ => x) ⟨none⟩ ⟨[2], [2, 3]⟩ ⟨[2], [4, 5]⟩ rfl rfl⟩

/-- C4: for Byte arrays of matching shape whose elementwise subtraction goes
negative somewhere, `sub` with a numeric fill in context succeeds and equals
the subtraction of the two arrays promoted to Num, while without a fill it
fails with the original Byte-domain (fill-flagged) error. -/
theorem c4_fill_retry :
    ∀ (env : Uiua) (a b : Array Nat),
      a.shape = b.shape → a.data.length = b.data.length →
      (∃ p ∈ a.data.zip b.data, p.2 < p.1) →
      (env.num_fill.isSome = true →
        Value.subByteDispatch env a b
          = .ok (.Num ⟨a.shape,
              List.zipWith subNumNum (a.data.map byteToDouble) (b.data.map byteToDouble)⟩)
        ∧ Value.subByteDispatch env a b
          = binDispatch .sub subNumNum env (.Num a.convert) (.Num b.convert))
      ∧ (env.num_fill.isSome = false →
        Value.subByteDispatch env a b
          = .error (fillError "Cannot subtract a byte from a smaller byte")) := by
  intro env a b hs hl hneg
  have herr : bin_pervade a b subByteByte
      = .error (fillError "Cannot subtract a byte from a smaller byte") := by
    simp [bin_pervade, hs, pervadeLoop_sub_err a.data b.data hl hneg]
  have hok : bin_pervade a.convert b.convert (fun x y => Except.ok (subNumNum x y))
      = .ok ⟨a.shape,
          List.zipWith subNumNum (a.data.map byteToDouble) (b.data.map byteToDouble)⟩ := by
    have h := bin_pervade_ok subNumNum a.convert b.convert hs
      (by simpa [Array.convert] using hl)
    simpa only [Array.convert] using h
  constructor
  · intro hf
    constructor
    · simp [Value.subByteDispatch, hf, herr, UiuaError.is_fill, fillError, hok]
    · simp [Value.subByteDispatch, binDispatch, numNumArm, hf, herr,
        UiuaError.is_fill, fillError, hok]
  · intro hf
    simp [Value.subByteDispatch, hf, herr]

/-- C4 witness: the fill-retry behaviour at concrete operands [1,5] - [3,2]
(elementwise subtraction of 5 from 2 would go negative), once with a numeric
fill configured and once without. -/
theorem c4_fill_retry_witness :
    (Value.subByteDispatch ⟨some 0⟩ ⟨[2], [1, 5]⟩ ⟨[2], [3, 2]⟩
      = .ok (.Num ⟨[2],
          List.zipWith subNumNum ([1, 5].map byteToDouble) ([3, 2].map byteToDouble)⟩))
    ∧ Value.subByteDispatch ⟨none⟩ ⟨[2], [1, 5]⟩ ⟨[2], [3, 2]⟩
      = .error (fillError "Cannot subtract a byte from a smaller byte") :=
  ⟨((c4_fill_retry ⟨some 0⟩ ⟨[2], [1, 5]⟩ ⟨[2], [3, 2]⟩ rfl rfl
      ⟨(5, 2), by decide, by decide⟩).1 (by decide)).1,
   (c4_fill_retry ⟨none⟩ ⟨[2], [1, 5]⟩ ⟨[2], [3, 2]⟩ rfl rfl
      ⟨(5, 2), by decide, by decide⟩).2 (by decide)⟩

/-- C2 witness: the message contract applied at concrete failing operands — a
Char scalar fed to `as_bool` (type defect) and a rank-2 Num array fed to
`as_indices` (rank defect). -/
theorem c2_amended_witness :
    onError (Value.as_bool (Value.Char ⟨[], ['x']⟩) ⟨none⟩ "R")
      (fun m => strHas m "R" = true ∧ fractScalarDefect m (Value.Char ⟨[], ['x']⟩))
    ∧ onError (Value.as_indices (Value.Num ⟨[2, 2], [1, 2, 3, 4]⟩) ⟨none⟩ "R")
      (fun m => strHas m "R" = true
        ∧ listExtractDefect (fun f => remOne f == 0) "R" m
            (Value.Num ⟨[2, 2], [1, 2, 3, 4]⟩)) :=
  ⟨c2_amended.1 ⟨none⟩ "R" (Value.Char ⟨[], ['x']⟩),
   c2_amended.2.2.2.2.1 ⟨none⟩ "R" (Value.Num ⟨[2, 2], [1, 2, 3, 4]⟩)⟩

/-- C6 witness: the acceptance characterizations applied at concrete operands —
`into_bytes` at a rank-0 Byte operand and `as_naturals` at a rank-1 Num
operand. -/
theorem c6_amended_witness :
    resultIsOk ((Value.Byte ⟨[], [7]⟩).into_bytes ⟨none⟩ "R")
      = bytesExtractAccepts (Value.Byte ⟨[], [7]⟩)
    ∧ resultIsOk ((Value.Num ⟨[2], [1, 2]⟩).as_naturals ⟨none⟩ "R")
      = listExtractAccepts (fun f => fract f == 0 && decide (0 ≤ f))
          (Value.Num ⟨[2], [1, 2]⟩) :=
  ⟨c6_amended.2.2.2.2 ⟨none⟩ "R" (Value.Byte ⟨[], [7]⟩),
   c6_amended.2.1 ⟨none⟩ "R" (Value.Num ⟨[2], [1, 2]⟩)⟩

end Uiua
